import Mathlib

/-!
Verification of the routing core of `rustyx` (src/src/router.rs).

The repository's `Router` stores, per HTTP method, a `matchit::Router` trie
and composes routes with a string path prefix.  `convert_express_params`,
`Router::add_route`, `Router::find_route`, `Router::mount` and
`Router::group` are translated here from the source.  The trie engine
itself (the `matchit` crate) is not part of the repository's sources, so it
is modelled from the specification's description of the radix-trie matcher
and the route table (spec sections 4.2 and 4.3): segment-wise insertion with
at most one parameter child per node, literal-first lookup with no
backtracking, failure on duplicate terminal entries, and strict
segment-count matching.

Handlers are opaque in the source (reference-counted closures); they are
represented by natural-number identifiers.
-/

set_option autoImplicit false

namespace Rustyx

/-- The opening brace character of the matchit parameter syntax. -/
def lbrace : Char := Char.ofNat 123

/-- The closing brace character of the matchit parameter syntax. -/
def rbrace : Char := Char.ofNat 125

/-- Characters accepted inside an Express parameter name by
`convert_express_params`: `next.is_alphanumeric() || next == '_'`.  The
source's `char::is_alphanumeric` is Unicode-aware while `Char.isAlphanum`
only covers ASCII, so this definition models the ASCII restriction of the
source predicate (they coincide on ASCII characters: `0-9`, `A-Z`, `a-z`);
theorems that quantify over patterns therefore restrict the quantified
characters to ASCII, where the model provably agrees with the program. -/
def isIdentChar (c : Char) : Bool := c.isAlphanum || c = '_'

/-- Tests that a character is ASCII, the fragment of the source's
Unicode-aware identifier predicate that `isIdentChar` models exactly. -/
def isAsciiChar (c : Char) : Bool := decide (c.toNat < 128)

/-- Tests that an optional character (the character following a `:`
marker, if any) is one the source's scanner refuses to put into a
parameter name, restricted to ASCII where the model is exact: end of
input, or an ASCII character that is neither alphanumeric nor an
underscore. -/
def asciiNonIdent : Option Char → Bool
  | none => true
  | some c => isAsciiChar c && ! isIdentChar c

/-- Character-level translation of `convert_express_params`
(src/src/router.rs lines 176-197).  The Boolean state records whether the
translator is currently inside a parameter name (the source's inner `while`
loop that copies identifier characters after a marker).  In state `true`,
hitting a non-identifier character closes the capture group and re-examines
that character exactly as the source's outer loop does after the inner loop
breaks without consuming it. -/
def convertChars : Bool → List Char → List Char
  | false, [] => []
  | false, c :: rest =>
      if c = ':' then lbrace :: convertChars true rest
      else c :: convertChars false rest
  | true, [] => [rbrace]
  | true, c :: rest =>
      if isIdentChar c then c :: convertChars true rest
      else rbrace ::
        (if c = ':' then lbrace :: convertChars true rest
         else c :: convertChars false rest)

/-- `convert_express_params`: converts Express-style `:name` markers to
matchit-style brace-delimited capture groups. -/
def convertExpressParams (path : String) : String :=
  String.mk (convertChars false path.data)

/-- The scanner state of `convert_express_params` after consuming a list
of characters: `true` when the source's inner identifier-copying loop is
active (an open capture group), `false` in the outer loop. -/
def convState : Bool → List Char → Bool
  | b, [] => b
  | false, c :: rest =>
      if c = ':' then convState true rest else convState false rest
  | true, c :: rest =>
      if isIdentChar c then convState true rest
      else if c = ':' then convState true rest else convState false rest

/-- The output `convert_express_params` has emitted after consuming a list
of characters: identical to `convertChars` except that reaching the end of
the list does not close a still-open capture group (the closing brace
belongs to whatever input follows).  Used to decompose the conversion of a
concatenation around a later marker. -/
def convPartial : Bool → List Char → List Char
  | _, [] => []
  | false, c :: rest =>
      if c = ':' then lbrace :: convPartial true rest
      else c :: convPartial false rest
  | true, c :: rest =>
      if isIdentChar c then c :: convPartial true rest
      else rbrace ::
        (if c = ':' then lbrace :: convPartial true rest
         else c :: convPartial false rest)

/-- Splits a character list on the slash character, keeping empty segments
(so a leading slash yields a leading empty segment and `"/a/"` differs from
`"/a"`).  Modelled from the spec: segments are "produced by splitting on
`/`" (spec section 4.1). -/
def splitSegsAux : List Char → List Char → List (List Char)
  | cur, [] => [cur.reverse]
  | cur, c :: rest =>
      if c = '/' then cur.reverse :: splitSegsAux [] rest
      else splitSegsAux (c :: cur) rest

/-- Splits a path string into its slash-separated segments. -/
def splitSegs (s : String) : List String :=
  (splitSegsAux [] s.data).map (fun l => String.mk l)

/-- A compiled path segment: literal or named parameter
(spec section 3, CompiledPath). -/
inductive Seg where
  | lit (s : String)
  | param (name : String)
deriving DecidableEq, Repr

/-- Modelled from the spec: classification of one matchit-syntax segment.
A segment entirely enclosed in braces is a parameter capture named by the
enclosed text (possibly empty); any other segment is a literal
(spec section 4.1). -/
def parseSeg (l : List Char) : Seg :=
  match l with
  | [] => Seg.lit ""
  | c :: rest =>
      if c = lbrace then
        match rest.getLast? with
        | some c2 =>
            if c2 = rbrace then Seg.param (String.mk rest.dropLast)
            else Seg.lit (String.mk (c :: rest))
        | none => Seg.lit (String.mk (c :: rest))
      else Seg.lit (String.mk (c :: rest))

/-- Modelled from the spec: compiling a matchit-syntax pattern string into
its ordered segment sequence (spec section 4.1). -/
def compilePattern (s : String) : List Seg :=
  (splitSegsAux [] s.data).map parseSeg

/-- Association-list lookup, the model of keyed-map access used for both
the per-method route table (`HashMap<Method, _>`) and a trie node's
literal children. -/
def alGet {α β : Type} [DecidableEq α] : List (α × β) → α → Option β
  | [], _ => none
  | (k, v) :: rest, k2 => if k2 = k then some v else alGet rest k2

/-- First-biased choice on options, used to state lookup lemmas about
merged tables. -/
def oor {β : Type} : Option β → Option β → Option β
  | some v, _ => some v
  | none, b => b

/-- Association-list store: replaces the value at an existing key, or
appends the binding when the key is absent. -/
def alSet {α β : Type} [DecidableEq α] : List (α × β) → α → β → List (α × β)
  | [], k, v => [(k, v)]
  | (k0, v0) :: rest, k, v =>
      if k = k0 then (k0, v) :: rest else (k0, v0) :: alSet rest k v

/-- Tests whether an `Except` value is an error, used to state insertion
failure without needing decidable equality of tries. -/
def isErr {ε α : Type} : Except ε α → Bool
  | .error _ => true
  | .ok _ => false

/-- Association-list version of `HashMap::entry(k).or_insert(v)`: keeps the
existing binding when the key is present, otherwise adds `(k, v)`. -/
def alEntry {α β : Type} [DecidableEq α] (l : List (α × β)) (k : α) (v : β) :
    List (α × β) :=
  if (alGet l k).isSome then l else l ++ [(k, v)]

/-- Modelled from the spec: a trie node of the radix/prefix matcher
(spec section 3, Trie Node).  It holds an optional terminal entry, at most
one parameter child (name plus subtree), and literal children keyed by
exact segment string. -/
inductive Trie where
  | node (terminal : Option Nat) (paramChild : Option (String × Trie))
      (children : List (String × Trie))

/-- The empty trie: no terminal, no children. -/
def Trie.empty : Trie := .node none none []

/-- Errors of trie insertion.  Modelled from the spec: insertion "fails ...
if the final node already holds a terminal entry for that exact path shape"
(spec section 4.3), and two different parameter names at the same depth are
ambiguous (spec section 3), matching the conflict errors of
`matchit::Router::insert`. -/
inductive InsertError where
  | conflict
deriving DecidableEq, Repr

/-- Modelled from the spec: trie insertion (spec section 4.3): walks or
creates nodes along the compiled path's segments and attaches the entry at
the final node, failing on a duplicate terminal entry or a clashing
parameter name. -/
def Trie.insert : Trie → List Seg → Nat → Except InsertError Trie
  | .node t pc ch, [], h =>
      match t with
      | some _ => .error .conflict
      | none => .ok (.node (some h) pc ch)
  | .node t pc ch, .lit s :: rest, h =>
      match Trie.insert ((alGet ch s).getD Trie.empty) rest h with
      | .error e => .error e
      | .ok c2 => .ok (.node t pc (alSet ch s c2))
  | .node t pc ch, .param n :: rest, h =>
      match pc with
      | none =>
          match Trie.insert Trie.empty rest h with
          | .error e => .error e
          | .ok c2 => .ok (.node t (some (n, c2)) ch)
      | some (n0, c) =>
          if n0 = n then
            match Trie.insert c rest h with
            | .error e => .error e
            | .ok c2 => .ok (.node t (some (n, c2)) ch)
          else .error .conflict

/-- Modelled from the spec: trie lookup (spec section 4.2): walk
segment-by-segment, preferring an exact literal child over the parameter
child at every depth, recording captured parameters in order, with no
backtracking; after consuming the path, succeed only on a terminal entry. -/
def Trie.atPath : Trie → List String → List (String × String) →
    Option (Nat × List (String × String))
  | .node t _ _, [], ps => t.map (fun h => (h, ps))
  | .node _ pc ch, s :: rest, ps =>
      match alGet ch s with
      | some c => Trie.atPath c rest ps
      | none =>
          match pc with
          | some (n, c) => Trie.atPath c rest (ps ++ [(n, s)])
          | none => none

/-- The HTTP methods the router registers (hyper::Method values used by
src/src/router.rs). -/
inductive Method where
  | GET | POST | PUT | DELETE | PATCH
deriving DecidableEq, Repr

/-- The `Router` of src/src/router.rs: a per-method route table plus a path
prefix string (the source's `prefix` field). -/
structure Router where
  routes : List (Method × Trie)
  basePath : String

/-- `Router::new`. -/
def Router.new : Router := ⟨[], ""⟩

/-- `Router::with_prefix`. -/
def Router.withBase (p : String) : Router := ⟨[], p⟩

/-- The compiled segment sequence `add_route` inserts for a supplied path:
the router's prefix is prepended to the raw pattern, the result is passed
through `convert_express_params`, and the converted string is compiled. -/
def Router.compiledFor (r : Router) (path : String) : List Seg :=
  compilePattern (convertExpressParams (r.basePath ++ path))

/-- `Router::add_route` (src/src/router.rs lines 44-54): materialises the
method's trie via `entry(method).or_insert_with(MatchitRouter::new)`, then
attempts the insertion; on an insertion error the source only logs a
warning, leaving the (possibly freshly created) trie in place. -/
def Router.addRoute (r : Router) (m : Method) (path : String) (h : Nat) :
    Router :=
  match Trie.insert ((alGet r.routes m).getD Trie.empty)
      (r.compiledFor path) h with
  | .ok t2 => { r with routes := alSet r.routes m t2 }
  | .error _ =>
      { r with routes := alSet r.routes m ((alGet r.routes m).getD Trie.empty) }

/-- `Router::find_route` (src/src/router.rs lines 57-73): looks up the trie
for the method (none registered means no match) and delegates to the trie
matcher, returning the handler and the captured parameters. -/
def Router.findRoute (r : Router) (m : Method) (path : String) :
    Option (Nat × List (String × String)) :=
  match alGet r.routes m with
  | none => none
  | some t => t.atPath (splitSegs path) []

/-- Merging a source route table into a destination, method by method, with
`entry(method).or_insert(trie)` — the table-level merge shared by
`Router::mount` and `Router::group`. -/
def mergeRoutes (dst src : List (Method × Trie)) : List (Method × Trie) :=
  src.foldl (fun acc p => alEntry acc p.1 p.2) dst

/-- `Router::mount` (src/src/router.rs lines 76-80).  The source binds the
prefix argument as `_prefix` and never reads it: mounting only drains the
other router's table into this one's, first writer wins per method. -/
def Router.mount (r : Router) (_pre : String) (other : Router) : Router :=
  { r with routes := mergeRoutes r.routes other.routes }

/-- `Router::group` (src/src/router.rs lines 153-166): builds a child
router prefixed by this router's prefix followed by the group prefix, lets
the configuration function populate it, then merges its table into this
one's with the same first-writer-wins policy as `mount`. -/
def Router.group (r : Router) (pre : String) (configure : Router → Router) :
    Router :=
  let g := configure (Router.withBase (r.basePath ++ pre))
  { r with routes := mergeRoutes r.routes g.routes }

/-! ## Helper lemmas -/

@[simp]
theorem oor_some {β : Type} (v : β) (b : Option β) : oor (some v) b = some v := rfl

@[simp]
theorem oor_none {β : Type} (b : Option β) : oor none b = b := rfl

@[simp]
theorem oor_none_right {β : Type} (a : Option β) : oor a none = a := by
  cases a <;> rfl

theorem oor_assoc {β : Type} (a b c : Option β) :
    oor (oor a b) c = oor a (oor b c) := by
  cases a <;> rfl

theorem alGet_append {α β : Type} [DecidableEq α] (l1 l2 : List (α × β))
    (k : α) : alGet (l1 ++ l2) k = oor (alGet l1 k) (alGet l2 k) := by
  induction l1 with
  | nil => simp [alGet]
  | cons p rest ih =>
      obtain ⟨k0, v0⟩ := p
      by_cases hk : k = k0 <;> simp [alGet, hk, ih]

@[simp]
theorem alGet_alSet_self {α β : Type} [DecidableEq α] (l : List (α × β))
    (k : α) (v : β) : alGet (alSet l k v) k = some v := by
  induction l with
  | nil => simp [alSet, alGet]
  | cons p rest ih =>
      obtain ⟨k0, v0⟩ := p
      by_cases hk : k = k0 <;> simp [alSet, alGet, hk, ih]

theorem alGet_alSet_ne {α β : Type} [DecidableEq α] (l : List (α × β))
    (k k2 : α) (v : β) (hne : k2 ≠ k) :
    alGet (alSet l k v) k2 = alGet l k2 := by
  induction l with
  | nil => simp [alSet, alGet, hne]
  | cons p rest ih =>
      obtain ⟨k0, v0⟩ := p
      by_cases hk : k = k0
      · subst hk
        simp [alSet, alGet, hne]
      · by_cases hk2 : k2 = k0 <;> simp [alSet, alGet, hk, hk2, ih]

theorem alSet_idem {α β : Type} [DecidableEq α] (l : List (α × β))
    (k : α) (v : β) : alSet (alSet l k v) k v = alSet l k v := by
  induction l with
  | nil => simp [alSet]
  | cons p rest ih =>
      obtain ⟨k0, v0⟩ := p
      by_cases hk : k = k0 <;> simp [alSet, hk, ih]

theorem alGet_alEntry {α β : Type} [DecidableEq α] (l : List (α × β))
    (k k0 : α) (v0 : β) :
    alGet (alEntry l k0 v0) k
      = oor (alGet l k) (if k = k0 then some v0 else none) := by
  unfold alEntry
  by_cases h0 : (alGet l k0).isSome
  · rw [if_pos h0]
    cases hl : alGet l k with
    | some v => rfl
    | none =>
        by_cases hk : k = k0
        · subst hk
          rw [hl] at h0
          simp at h0
        · simp [hk]
  · rw [if_neg h0, alGet_append]
    cases hl : alGet l k <;> simp [alGet]

theorem alGet_foldl_alEntry {α β : Type} [DecidableEq α]
    (src : List (α × β)) (dst : List (α × β)) (k : α) :
    alGet (src.foldl (fun acc p => alEntry acc p.1 p.2) dst) k
      = oor (alGet dst k) (alGet src k) := by
  induction src generalizing dst with
  | nil => simp [alGet]
  | cons p rest ih =>
      obtain ⟨k0, v0⟩ := p
      rw [List.foldl_cons, ih, alGet_alEntry, oor_assoc]
      by_cases hk : k = k0 <;> simp [alGet, hk]

theorem alGet_mergeRoutes (dst src : List (Method × Trie)) (m : Method) :
    alGet (mergeRoutes dst src) m = oor (alGet dst m) (alGet src m) :=
  alGet_foldl_alEntry src dst m

theorem atPath_empty (segs : List String) (ps : List (String × String)) :
    Trie.empty.atPath segs ps = none := by
  cases segs <;> simp [Trie.empty, Trie.atPath, alGet]

theorem convertChars_close (post : List Char)
    (hpost : post.head?.all (fun c => ! isIdentChar c) = true) :
    convertChars true post = rbrace :: convertChars false post := by
  cases post with
  | nil => rfl
  | cons c rest =>
      have hc : isIdentChar c = false := by simpa using hpost
      simp [convertChars, hc]

theorem asciiNonIdent_nonident (o : Option Char)
    (h : asciiNonIdent o = true) :
    o.all (fun c => ! isIdentChar c) = true := by
  cases o with
  | none => rfl
  | some c =>
      simp only [asciiNonIdent, Bool.and_eq_true] at h
      simpa using h.2

theorem convertChars_append (s1 s2 : List Char) (b : Bool) :
    convertChars b (s1 ++ s2)
      = convPartial b s1 ++ convertChars (convState b s1) s2 := by
  induction s1 generalizing b with
  | nil => simp [convPartial, convState]
  | cons c rest ih =>
      cases b with
      | false =>
          by_cases hc : c = ':'
          · simp [convertChars, convPartial, convState, hc, ih]
          · simp [convertChars, convPartial, convState, hc, ih]
      | true =>
          have hcolon : isIdentChar ':' = false := by decide
          by_cases hi : isIdentChar c
          · simp [convertChars, convPartial, convState, hi, ih]
          · by_cases hc : c = ':'
            · simp [convertChars, convPartial, convState, hi, hc, hcolon, ih]
            · simp [convertChars, convPartial, convState, hi, hc, ih]

theorem convertChars_bare (b : Bool) (post : List Char)
    (hpost : post.head?.all (fun c => ! isIdentChar c) = true) :
    convertChars b (':' :: post)
      = (if b then [rbrace] else [])
        ++ lbrace :: rbrace :: convertChars false post := by
  have hcolon : isIdentChar ':' = false := by decide
  cases b with
  | false => simp [convertChars, convertChars_close post hpost]
  | true => simp [convertChars, hcolon, convertChars_close post hpost]

theorem insert_nil_some (x : Nat) (pc : Option (String × Trie))
    (ch : List (String × Trie)) (h : Nat) :
    Trie.insert (.node (some x) pc ch) [] h = .error .conflict := rfl

theorem insert_nil_none (pc : Option (String × Trie))
    (ch : List (String × Trie)) (h : Nat) :
    Trie.insert (.node none pc ch) [] h = .ok (.node (some h) pc ch) := rfl

theorem insert_lit (term : Option Nat) (pc : Option (String × Trie))
    (ch : List (String × Trie)) (s : String) (rest : List Seg) (h : Nat) :
    Trie.insert (.node term pc ch) (.lit s :: rest) h
      = match Trie.insert ((alGet ch s).getD Trie.empty) rest h with
        | .error e => .error e
        | .ok c2 => .ok (.node term pc (alSet ch s c2)) := rfl

theorem insert_param_none (term : Option Nat) (ch : List (String × Trie))
    (n : String) (rest : List Seg) (h : Nat) :
    Trie.insert (.node term none ch) (.param n :: rest) h
      = match Trie.insert Trie.empty rest h with
        | .error e => .error e
        | .ok c2 => .ok (.node term (some (n, c2)) ch) := rfl

theorem insert_param_some (term : Option Nat) (ch : List (String × Trie))
    (n n0 : String) (c : Trie) (rest : List Seg) (h : Nat) :
    Trie.insert (.node term (some (n0, c)) ch) (.param n :: rest) h
      = (if n0 = n then
          match Trie.insert c rest h with
          | .error e => .error e
          | .ok c2 => .ok (.node term (some (n, c2)) ch)
        else .error .conflict) := rfl

theorem insert_error_congr (segs : List Seg) (t : Trie) (h1 h2 : Nat)
    (e : InsertError) (herr : Trie.insert t segs h1 = .error e) :
    Trie.insert t segs h2 = .error e := by
  cases e
  induction segs generalizing t with
  | nil =>
      obtain ⟨term, pc, ch⟩ := t
      cases term with
      | some x => rw [insert_nil_some]
      | none => simp [insert_nil_none] at herr
  | cons sg rest ih =>
      obtain ⟨term, pc, ch⟩ := t
      cases sg with
      | lit s =>
          rw [insert_lit] at herr ⊢
          cases hrec : Trie.insert ((alGet ch s).getD Trie.empty) rest h1 with
          | ok c2 => simp [hrec] at herr
          | error e2 =>
              cases e2
              rw [ih _ hrec]
      | param n =>
          cases pc with
          | none =>
              rw [insert_param_none] at herr ⊢
              cases hrec : Trie.insert Trie.empty rest h1 with
              | ok c2 => simp [hrec] at herr
              | error e2 =>
                  cases e2
                  rw [ih _ hrec]
          | some p =>
              obtain ⟨n0, c⟩ := p
              rw [insert_param_some] at herr ⊢
              by_cases hn : n0 = n
              · rw [if_pos hn] at herr ⊢
                cases hrec : Trie.insert c rest h1 with
                | ok c2 => simp [hrec] at herr
                | error e2 =>
                    cases e2
                    rw [ih _ hrec]
              · rw [if_neg hn]

theorem insert_ok_conflict (segs : List Seg) (t t2 : Trie) (h1 h2 : Nat)
    (hok : Trie.insert t segs h1 = .ok t2) :
    Trie.insert t2 segs h2 = .error .conflict := by
  induction segs generalizing t t2 with
  | nil =>
      obtain ⟨term, pc, ch⟩ := t
      cases term with
      | some x => simp [insert_nil_some] at hok
      | none =>
          rw [insert_nil_none] at hok
          simp only [Except.ok.injEq] at hok
          subst hok
          rw [insert_nil_some]
  | cons sg rest ih =>
      obtain ⟨term, pc, ch⟩ := t
      cases sg with
      | lit s =>
          rw [insert_lit] at hok
          cases hrec : Trie.insert ((alGet ch s).getD Trie.empty) rest h1 with
          | error e2 => simp [hrec] at hok
          | ok c2 =>
              rw [hrec] at hok
              simp only [Except.ok.injEq] at hok
              subst hok
              rw [insert_lit, alGet_alSet_self, Option.getD_some,
                ih _ _ hrec]
      | param n =>
          cases pc with
          | none =>
              rw [insert_param_none] at hok
              cases hrec : Trie.insert Trie.empty rest h1 with
              | error e2 => simp [hrec] at hok
              | ok c2 =>
                  rw [hrec] at hok
                  simp only [Except.ok.injEq] at hok
                  subst hok
                  simp [insert_param_some, ih _ _ hrec]
          | some p =>
              obtain ⟨n0, c⟩ := p
              rw [insert_param_some] at hok
              by_cases hn : n0 = n
              · rw [if_pos hn] at hok
                cases hrec : Trie.insert c rest h1 with
                | error e2 => simp [hrec] at hok
                | ok c2 =>
                    rw [hrec] at hok
                    simp only [Except.ok.injEq] at hok
                    subst hok
                    simp [insert_param_some, ih _ _ hrec]
              · rw [if_neg hn] at hok
                simp at hok

theorem addRoute_ok (r : Router) (m : Method) (p : String) (h : Nat)
    (t2 : Trie)
    (hins : Trie.insert ((alGet r.routes m).getD Trie.empty)
      (r.compiledFor p) h = .ok t2) :
    r.addRoute m p h = { r with routes := alSet r.routes m t2 } := by
  unfold Router.addRoute
  rw [hins]

theorem addRoute_err (r : Router) (m : Method) (p : String) (h : Nat)
    (e : InsertError)
    (hins : Trie.insert ((alGet r.routes m).getD Trie.empty)
      (r.compiledFor p) h = .error e) :
    r.addRoute m p h
      = { r with
          routes := alSet r.routes m ((alGet r.routes m).getD Trie.empty) } := by
  unfold Router.addRoute
  rw [hins]

theorem alSet_self_of_get {α β : Type} [DecidableEq α] (l : List (α × β))
    (k : α) (v : β) (h : alGet l k = some v) : alSet l k v = l := by
  induction l with
  | nil => simp [alGet] at h
  | cons p0 rest ih =>
      obtain ⟨k0, v0⟩ := p0
      by_cases hk : k = k0
      · subst hk
        simp [alGet] at h
        simp [alSet, h]
      · simp only [alGet, if_neg hk] at h
        simp [alSet, hk, ih h]

theorem addRoute_noop (r2 : Router) (m : Method) (p : String) (h : Nat)
    (t : Trie) (hget : alGet r2.routes m = some t)
    (hfail : ∃ e, Trie.insert t (r2.compiledFor p) h = .error e) :
    r2.addRoute m p h = r2 := by
  obtain ⟨e, he⟩ := hfail
  have hins : Trie.insert ((alGet r2.routes m).getD Trie.empty)
      (r2.compiledFor p) h = .error e := by
    rw [hget]
    exact he
  rw [addRoute_err r2 m p h e hins]
  have hroutes : alSet r2.routes m ((alGet r2.routes m).getD Trie.empty)
      = r2.routes := by
    rw [hget, Option.getD_some]
    exact alSet_self_of_get r2.routes m t hget
  rw [hroutes]

theorem addRoute_routes_isSome (r : Router) (m : Method) (p : String)
    (h : Nat) : (alGet (r.addRoute m p h).routes m).isSome = true := by
  cases hins : Trie.insert ((alGet r.routes m).getD Trie.empty)
      (r.compiledFor p) h with
  | ok t2 => rw [addRoute_ok r m p h t2 hins]; simp
  | error e => rw [addRoute_err r m p h e hins]; simp

theorem mount_find_of_isSome (d s : Router) (pre : String) (m : Method)
    (hm : (alGet d.routes m).isSome = true) (q : String) :
    (d.mount pre s).findRoute m q = d.findRoute m q := by
  obtain ⟨t, ht⟩ := Option.isSome_iff_exists.mp hm
  simp only [Router.findRoute, Router.mount, alGet_mergeRoutes, ht, oor_some]

/-! ## Claims -/

/-- Claim C1, counterexample.  The claim asserts that after
`d.mount(pre, s)` a route of `s` registered at `p` is findable in `d` at
`pre + p`.  With destination `Router::new()` (no routes for GET), prefix
`"/api"` and a source holding a GET route at `"/x"` (handler 1, findable in
the source), the mounted router does not find any route at
`"/api" + "/x"`: `mount` ignores its prefix argument. -/
theorem C1_counterexample :
    alGet (Router.new).routes Method.GET = none
    ∧ (Router.new.addRoute Method.GET "/x" 1).findRoute Method.GET "/x"
        = some (1, [])
    ∧ (Router.new.mount "/api"
        (Router.new.addRoute Method.GET "/x" 1)).findRoute Method.GET
        ("/api" ++ "/x") = none :=
  ⟨rfl, by decide, by decide⟩

/-- Claim C1, amended.  `Router::mount` binds its prefix parameter as
`_prefix` and never reads it, so mounting merges the source's tries
unprefixed: for every destination `d` with no trie for method `m`, every
prefix `pre` and every source `s`, after `d.mount(pre, s)` the lookup
`find_route(m, q)` in the destination agrees with `s.find_route(m, q)` for
every path `q` — in particular a source route registered at `p` is found
at `p` itself, not at `pre + p`. -/
theorem C1_theorem (d s : Router) (pre : String) (m : Method)
    (hm : alGet d.routes m = none) (q : String) :
    (d.mount pre s).findRoute m q = s.findRoute m q := by
  simp only [Router.findRoute, Router.mount, alGet_mergeRoutes, hm, oor_none]

/-- Claim C1, witness for the amended theorem at concrete inputs. -/
theorem C1_witness :
    alGet (Router.new).routes Method.GET = none
    ∧ (Router.new.mount "/api"
        (Router.new.addRoute Method.GET "/x" 1)).findRoute Method.GET "/x"
      = (Router.new.addRoute Method.GET "/x" 1).findRoute Method.GET "/x" :=
  ⟨rfl, C1_theorem Router.new (Router.new.addRoute Method.GET "/x" 1)
    "/api" Method.GET rfl "/x"⟩

/-- Claim C2, counterexample.  The claim asserts silent overwrite: after
registering handler 1 and then handler 2 for GET `/users/:id`, a lookup of
`/users/5` should return handler 2.  It returns handler 1: the second
insertion hits the existing terminal entry, fails, and is skipped with
only a warning. -/
theorem C2_counterexample :
    ((Router.new.addRoute Method.GET "/users/:id" 1).addRoute Method.GET
        "/users/:id" 2).findRoute Method.GET "/users/5"
      = some (1, [("id", "5")])
    ∧ ((Router.new.addRoute Method.GET "/users/:id" 1).addRoute Method.GET
        "/users/:id" 2).findRoute Method.GET "/users/5"
      ≠ some (2, [("id", "5")]) := by
  refine ⟨by decide, ?_⟩
  decide

/-- Claim C2, amended.  Duplicate registration is warn-and-skip, not
overwrite: a second `add_route` with the same method and pattern fails its
trie insertion against the terminal entry left by the first and leaves the
router completely unchanged, so lookups keep returning the first handler. -/
theorem C2_theorem (r : Router) (m : Method) (p : String) (h1 h2 : Nat) :
    (r.addRoute m p h1).addRoute m p h2 = r.addRoute m p h1 := by
  cases hins : Trie.insert ((alGet r.routes m).getD Trie.empty)
      (r.compiledFor p) h1 with
  | ok t1 =>
      rw [addRoute_ok r m p h1 t1 hins]
      refine addRoute_noop _ m p h2 t1 ?_ ?_
      · exact alGet_alSet_self r.routes m t1
      · refine ⟨.conflict, ?_⟩
        show Trie.insert t1 (r.compiledFor p) h2 = .error .conflict
        exact insert_ok_conflict _ _ _ h1 h2 hins
  | error e =>
      rw [addRoute_err r m p h1 e hins]
      refine addRoute_noop _ m p h2
        ((alGet r.routes m).getD Trie.empty) ?_ ?_
      · exact alGet_alSet_self r.routes m _
      · refine ⟨e, ?_⟩
        show Trie.insert ((alGet r.routes m).getD Trie.empty)
          (r.compiledFor p) h2 = .error e
        exact insert_error_congr _ _ h1 h2 e hins

/-- Claim C3: mount is first-writer-wins keyed by method at the table
level.  If the destination `d` already has a trie for method `m`, then
after `d.mount(pre, s)` every lookup for `m` returns exactly what it
returned before the mount — the source's trie for `m` is discarded whole,
with no node-level merge. -/
theorem C3_theorem (d s : Router) (pre : String) (m : Method)
    (hm : (alGet d.routes m).isSome = true) (q : String) :
    (d.mount pre s).findRoute m q = d.findRoute m q :=
  mount_find_of_isSome d s pre m hm q

/-- Claim C3, witness: a destination holding GET `/a` mounted with a
source holding GET `/b`; the mounted router still resolves GET lookups
exactly as the destination did. -/
theorem C3_witness :
    (alGet (Router.new.addRoute Method.GET "/a" 1).routes
      Method.GET).isSome = true
    ∧ ((Router.new.addRoute Method.GET "/a" 1).mount "/m"
        (Router.new.addRoute Method.GET "/b" 2)).findRoute Method.GET "/b"
      = (Router.new.addRoute Method.GET "/a" 1).findRoute Method.GET "/b" :=
  ⟨by decide, C3_theorem (Router.new.addRoute Method.GET "/a" 1)
    (Router.new.addRoute Method.GET "/b" 2) "/m" Method.GET (by decide)
    "/b"⟩

/-- Claim C10: `add_route` materialises the method's trie before
attempting the pattern insertion, so after any `add_route(m, p, h)` call —
succeeding or failing — the route table holds a trie keyed by `m`; a
subsequent mount of any source router therefore resolves every lookup for
`m` exactly as before the mount, discarding the source's routes for `m`. -/
theorem C10_theorem (r : Router) (m : Method) (p : String) (h : Nat)
    (s : Router) (pre : String) :
    (alGet (r.addRoute m p h).routes m).isSome = true
    ∧ ∀ q, ((r.addRoute m p h).mount pre s).findRoute m q
        = (r.addRoute m p h).findRoute m q :=
  ⟨addRoute_routes_isSome r m p h,
   fun q => mount_find_of_isSome (r.addRoute m p h) s pre m
     (addRoute_routes_isSome r m p h) q⟩

/-- Claim C4: literal-first precedence.  With both `/users/active` and
`/users/:id` registered for GET (in either order), looking up
`/users/active` returns the literal entry's handler with no parameters,
and looking up `/users/42` returns the parameterized entry's handler with
`id` bound to `"42"`. -/
theorem C4_theorem :
    ((Router.new.addRoute Method.GET "/users/active" 1).addRoute Method.GET
        "/users/:id" 2).findRoute Method.GET "/users/active" = some (1, [])
    ∧ ((Router.new.addRoute Method.GET "/users/active" 1).addRoute
        Method.GET "/users/:id" 2).findRoute Method.GET "/users/42"
      = some (2, [("id", "42")])
    ∧ ((Router.new.addRoute Method.GET "/users/:id" 2).addRoute Method.GET
        "/users/active" 1).findRoute Method.GET "/users/active"
      = some (1, [])
    ∧ ((Router.new.addRoute Method.GET "/users/:id" 2).addRoute Method.GET
        "/users/active" 1).findRoute Method.GET "/users/42"
      = some (2, [("id", "42")]) := by
  refine ⟨by decide, by decide, by decide, ?_⟩
  decide

/-- Claim C5: group prefixing.  A parent router with prefix `/api/v1` and
no registered routes, grouped under `/users` with an inner registration of
GET `/:id` (handler 7), resolves `find_route(GET, "/api/v1/users/55")` to
handler 7 with `id` bound to `"55"`. -/
theorem C5_theorem :
    ((Router.withBase "/api/v1").group "/users"
        (fun g => g.addRoute Method.GET "/:id" 7)).findRoute Method.GET
      "/api/v1/users/55" = some (7, [("id", "55")]) := by
  decide

/-- Claim C6: multi-parameter extraction.  For pattern
`/users/:id/posts/:postId` registered for GET, looking up
`/users/7/posts/99` returns the registered handler and exactly the
parameter bindings `id = "7"` and `postId = "99"`. -/
theorem C6_theorem :
    (Router.new.addRoute Method.GET "/users/:id/posts/:postId" 3).findRoute
      Method.GET "/users/7/posts/99"
      = some (3, [("id", "7"), ("postId", "99")]) := by
  decide

/-- Claim C7: matching requires the full registered path.  With only
`/a/b` registered for GET, that exact path matches, while the shorter
`/a` (a registered prefix with no terminal entry) and the longer `/a/b/c`
(extra trailing segment) both return no match. -/
theorem C7_theorem :
    (Router.new.addRoute Method.GET "/a/b" 1).findRoute Method.GET "/a/b"
      = some (1, [])
    ∧ (Router.new.addRoute Method.GET "/a/b" 1).findRoute Method.GET "/a"
      = none
    ∧ (Router.new.addRoute Method.GET "/a/b" 1).findRoute Method.GET
        "/a/b/c" = none := by
  refine ⟨by decide, by decide, ?_⟩
  decide

/-- Claim C8: partial-failure isolation.  Whenever the trie insertion
attempted by `add_route` fails, every `(method, path)` lookup on the
resulting router returns exactly what it returned before the call: the
failed registration is skipped without disturbing previously inserted
routes. -/
theorem C8_theorem (r : Router) (m : Method) (p : String) (h : Nat)
    (hfail : isErr (Trie.insert ((alGet r.routes m).getD Trie.empty)
      (r.compiledFor p) h) = true)
    (m2 : Method) (q : String) :
    (r.addRoute m p h).findRoute m2 q = r.findRoute m2 q := by
  cases hx : Trie.insert ((alGet r.routes m).getD Trie.empty)
      (r.compiledFor p) h with
  | ok t2 => rw [hx] at hfail; simp [isErr] at hfail
  | error e =>
      rw [addRoute_err r m p h e hx]
      by_cases hm : m2 = m
      · subst hm
        cases hg : alGet r.routes m2 with
        | none =>
            simp only [Router.findRoute, alGet_alSet_self, hg,
              Option.getD_none]
            simp [atPath_empty]
        | some t =>
            simp only [Router.findRoute, alGet_alSet_self, hg,
              Option.getD_some]
      · simp only [Router.findRoute, alGet_alSet_ne _ _ _ _ hm]

/-- Claim C8, witness: registering `/d` twice for GET makes the second
insertion fail, and lookups are unchanged by the failed call. -/
theorem C8_witness :
    isErr (Trie.insert
        ((alGet (Router.new.addRoute Method.GET "/d" 1).routes
          Method.GET).getD Trie.empty)
        ((Router.new.addRoute Method.GET "/d" 1).compiledFor "/d") 2) = true
    ∧ ((Router.new.addRoute Method.GET "/d" 1).addRoute Method.GET "/d"
        2).findRoute Method.GET "/d"
      = (Router.new.addRoute Method.GET "/d" 1).findRoute Method.GET "/d" :=
  ⟨by decide, C8_theorem (Router.new.addRoute Method.GET "/d" 1) Method.GET
    "/d" 2 (by decide) Method.GET "/d"⟩

/-- Claim C9: a bare parameter marker compiles to an empty-named capture
group.  For every pattern of ASCII characters (the fragment on which
`isIdentChar` coincides exactly with the source's Unicode-aware
`char::is_alphanumeric`) containing a `:` marker followed by no
alphanumeric/underscore character (next character non-identifier, or end
of input), `convert_express_params` emits an empty brace pair at that
marker — whatever precedes it, including earlier parameter markers, whose
effect is captured by the scanner state `convState` and emitted output
`convPartial` — and continues; concretely `/a/:` converts to `/a/`
followed by an empty capture group, which compiles to a parameter segment
whose name is the empty string — the pattern is neither rejected nor
treated as a literal `:`. -/
theorem C9_theorem :
    (∀ (pre post : List Char),
      pre.all isAsciiChar = true
      → post.all isAsciiChar = true
      → asciiNonIdent post.head? = true
      → convertChars false (pre ++ ':' :: post)
        = convPartial false pre
          ++ ((if convState false pre then [rbrace] else [])
            ++ lbrace :: rbrace :: convertChars false post))
    ∧ convertExpressParams "/a/:" = "/a/\x7b\x7d"
    ∧ compilePattern (convertExpressParams "/a/:")
      = [Seg.lit "", Seg.lit "a", Seg.param ""] := by
  refine ⟨?_, by decide, by decide⟩
  intro pre post hpre hpost hbare
  rw [convertChars_append pre (':' :: post) false,
    convertChars_bare (convState false pre) post
      (asciiNonIdent_nonident _ hbare)]

/-- Claim C9, witness for the universally quantified part at a concrete
input whose bare marker at end of input is preceded by an earlier
parameter marker (`/:x` followed by a bare `:`). -/
theorem C9_witness :
    (['/', ':', 'x'].all isAsciiChar = true)
    ∧ (([] : List Char).all isAsciiChar = true)
    ∧ asciiNonIdent ([] : List Char).head? = true
    ∧ convertChars false (['/', ':', 'x'] ++ ':' :: [])
      = convPartial false ['/', ':', 'x']
        ++ ((if convState false ['/', ':', 'x'] then [rbrace] else [])
          ++ lbrace :: rbrace :: convertChars false []) :=
  ⟨by decide, by decide, by decide,
    C9_theorem.1 ['/', ':', 'x'] [] (by decide) (by decide) (by decide)⟩

end Rustyx
